import Mathlib

/-
Verification development for the Tuxemon battle core
(tuxemon/states/combat/combat.py, tuxemon/ai.py,
tuxemon/technique/effects/local_damage.py,
tuxemon/condition/conditions/current_hp.py).

The Python code is shallowly embedded: Python ints become Int or Nat,
Python floats become Rat, object identity of monsters, items and moves is
modelled by numeric id fields, and mutation is modelled by explicit state
passing.  Functions keep the names of the Python functions they embed.
-/

namespace Tuxemon

/-- Move data: one known move of a monster.  The combat and AI code only
reads the remaining recharge counter, named next_use in the source. -/
structure Move where
  id : Nat
  next_use : Int
  deriving DecidableEq, Repr

/-- Condition attached to a monster (status slot).  Only the slug and the
turn counter are read by the embedded code. -/
structure StatusCond where
  slug : String
  nr_turn : Nat
  deriving DecidableEq, Repr

/-- Monster instance in battle, with the fields that the embedded
functions read or write. -/
structure Monster where
  id : Nat
  current_hp : Int
  hp : Int
  level : Nat
  total_experience : Nat
  experience_modifier : Nat
  money_modifier : Nat
  max_moves : Nat
  moves : List Move
  status : List StatusCond
  deriving DecidableEq, Repr

/-- Sort category of an action payload, combat.py line 642: the fixed
priority list used by sort_action_queue. -/
inductive SortCat
  | meta
  | item
  | utility
  | potion
  | food
  | heal
  | damage
  deriving DecidableEq, Repr

/-- Fixed priority list sort_order of combat.py lines 642 to 650. -/
def sort_order : List SortCat :=
  [.meta, .item, .utility, .potion, .food, .heal, .damage]

/-- Payload of a queued action (Technique or Item or Condition): the queue
ordering code only reads its sort category; the id models object
identity. -/
structure ActionPayload where
  id : Nat
  sort : SortCat
  deriving DecidableEq, Repr

/-- EnqueuedAction of combat.py line 119: user (a monster or an NPC or
None, modelled by an optional id), payload, target monster (by id). -/
structure EnqueuedAction where
  user : Option Nat
  technique : Option ActionPayload
  target : Nat
  deriving DecidableEq, Repr

/-- CombatPhase literal of combat.py lines 103 to 116. -/
inductive CombatPhase
  | begin
  | ready
  | housekeeping
  | decision
  | preAction
  | action
  | postAction
  | resolveMatch
  | ranAway
  | drawMatch
  | hasWinner
  | endCombat
  deriving DecidableEq, Repr

/-- Player (NPC) in combat: roster of monsters, the mutable max_position
counter, and the ids of the monsters this player has in play
(monsters_in_play of the combat state, stored per player). -/
structure Player where
  id : Nat
  monsters : List Monster
  max_position : Int
  in_play : List Nat
  deriving DecidableEq, Repr

/-- Combat state slice read and written by determine_phase: the phase, the
players (in order), the action queue and the _run flag. -/
structure CombatState where
  phase : Option CombatPhase
  players : List Player
  action_queue : List EnqueuedAction
  run : Bool
  deriving DecidableEq, Repr

/-- Modelled from the spec: alive_party is imported from tuxemon/combat.py
which is not part of the sources; the spec defines a party as defeated
when it has no combatant with health strictly above zero, so alive_party
lists the roster monsters with current health strictly above zero. -/
def alive_party (p : Player) : List Monster :=
  p.monsters.filter (fun m => 0 < m.current_hp)

/-- Modelled from the spec: defeated is imported from tuxemon/combat.py
which is not part of the sources; a player is defeated when its alive
party is empty. -/
def defeated (p : Player) : Bool :=
  alive_party p = []

/-- Players that are not defeated, combat.py property remaining_players. -/
def remaining_players (s : CombatState) : List Player :=
  s.players.filter (fun p => ¬ defeated p)

/-- Monster ids currently on the battlefield, combat.py property
active_monsters: concatenation of monsters_in_play over the players. -/
def active_monsters (s : CombatState) : List Nat :=
  (s.players.map Player.in_play).flatten

/-- Housekeeping branch of determine_phase (combat.py lines 380 to 390).
The Python loop walks the active (non defeated) players; when a player
has exactly one alive monster it mutates that player by setting
max_position to 1; it then returns None as soon as a player still has
battleground positions to fill, and decision phase once every active
player is full.  The returned list carries the mutated players. -/
def determine_phase_housekeeping :
    List Player → Option CombatPhase × List Player
  | [] => (some CombatPhase.decision, [])
  | p :: ps =>
    if defeated p then
      let r := determine_phase_housekeeping ps
      (r.1, p :: r.2)
    else
      let p1 := if (alive_party p).length = 1 then
        { p with max_position := 1 } else p
      let positions_available : Int := p1.max_position - p1.in_play.length
      if positions_available ≠ 0 then (none, p1 :: ps)
      else
        let r := determine_phase_housekeeping ps
        (r.1, p1 :: r.2)

/-- determine_phase of combat.py lines 352 to 445.  Returns the next phase
(or none, meaning stay) together with the resulting combat state; the
state result records the mutation the housekeeping branch performs. -/
def determine_phase (s : CombatState) : Option CombatPhase × CombatState :=
  match s.phase with
  | none => (none, s)
  | some ph =>
    match ph with
    | .begin => (none, s)
    | .ready => (some .housekeeping, s)
    | .housekeeping =>
      let r := determine_phase_housekeeping s.players
      (r.1, { s with players := r.2 })
    | .decision =>
      if (remaining_players s).length = 1 then (some .ranAway, s)
      else if s.action_queue.length = (active_monsters s).length then
        (some .preAction, s)
      else (none, s)
    | .preAction => (some .action, s)
    | .action =>
      (if s.action_queue.isEmpty then some .postAction else none, s)
    | .postAction =>
      (if s.action_queue.isEmpty then some .resolveMatch else none, s)
    | .resolveMatch =>
      let remaining := (remaining_players s).length
      if remaining = 0 then (some .drawMatch, s)
      else if remaining = 1 then
        (if s.run then some .ranAway else some .hasWinner, s)
      else (some .housekeeping, s)
    | .ranAway => (some .endCombat, s)
    | .drawMatch => (some .endCombat, s)
    | .hasWinner => (some .endCombat, s)
    | .endCombat => (none, s)

/-- Sort key of one queued action, rank_action of combat.py lines 623 to
639.  The speed_test method of the user is defined outside the sources
and is passed as a parameter mapping an action to the speed value of its
user for that action. -/
def rank_action (speed_test : EnqueuedAction → Int) (a : EnqueuedAction) :
    Nat × Int :=
  match a.technique with
  | none => (0, 0)
  | some t =>
    let primary_order := sort_order.indexOf t.sort
    match t.sort with
    | .meta => (primary_order, 0)
    | .potion => (primary_order, 0)
    | _ => (primary_order, speed_test a)

/-- Lexicographic order on sort keys: Python compares tuples position by
position. -/
def rankLe (x y : Nat × Int) : Prop :=
  x.1 < y.1 ∨ (x.1 = y.1 ∧ x.2 ≤ y.2)

instance (x y : Nat × Int) : Decidable (rankLe x y) := by
  unfold rankLe
  infer_instance

/-- Stable insertion into a list sorted by descending key: the new element
goes after every element whose key is at least its own key. -/
def insertDescending (k : EnqueuedAction → Nat × Int) (x : EnqueuedAction) :
    List EnqueuedAction → List EnqueuedAction
  | [] => [x]
  | y :: ys =>
    if rankLe (k x) (k y) then y :: insertDescending k x ys
    else x :: y :: ys

/-- Model of the Python call list.sort(key=rank_action, reverse=True) on
combat.py line 655: a stable descending sort.  Stable descending
insertion sort returns the same list as every stable descending sort, in
particular the Python one. -/
def pySortDescending (k : EnqueuedAction → Nat × Int)
    (l : List EnqueuedAction) : List EnqueuedAction :=
  l.foldl (fun acc x => insertDescending k x acc) []

/-- sort_action_queue of combat.py lines 614 to 655. -/
def sort_action_queue (speed_test : EnqueuedAction → Int)
    (q : List EnqueuedAction) : List EnqueuedAction :=
  pySortDescending (rank_action speed_test) q

/-- Pop of combat.py line 684: Python list.pop takes the last element. -/
def pyPop (q : List EnqueuedAction) :
    Option (EnqueuedAction × List EnqueuedAction) :=
  match q.getLast? with
  | none => none
  | some a => some (a, q.dropLast)

/-- Order in which handle_action_queue (combat.py lines 681 to 688)
executes the queue: repeatedly pop the last element and perform it. -/
def drainQueue (q : List EnqueuedAction) : List EnqueuedAction :=
  match h : q.getLast? with
  | none => []
  | some a => a :: drainQueue q.dropLast
termination_by q.length
decreasing_by
  cases q with
  | nil => simp at h
  | cons b bs =>
    simp only [List.dropLast_cons_of_ne_nil, List.length_dropLast,
      List.length_cons]
    omega

/-- rewrite_action_queue_target of combat.py lines 948 to 965: every
queued action whose target is the original monster is replaced by the
same action retargeted to the new monster. -/
def rewrite_action_queue_target (original new : Nat)
    (q : List EnqueuedAction) : List EnqueuedAction :=
  q.map (fun a =>
    if a.target = original then { a with target := new } else a)

/-- Test of combat.py line 994: the action references the monster as user
or as target. -/
def action_references (monster : Nat) (a : EnqueuedAction) : Bool :=
  a.user == some monster || a.target == monster

/-- remove_monster_actions_from_queue of combat.py lines 982 to 998.  The
Python code collects the matching actions into a set, deduplicating equal
action tuples, and then calls list.remove once per set element, which
deletes only the first occurrence of each distinct action value.  The set
iteration order is irrelevant: the removed values are pairwise distinct,
so the removals commute; the model iterates them in first occurrence
order. -/
def remove_monster_actions_from_queue (monster : Nat)
    (q : List EnqueuedAction) : List EnqueuedAction :=
  let to_remove := (q.filter (action_references monster)).dedup
  to_remove.foldl (fun acc a => acc.erase a) q

/-- Modelled from the spec: has_status is imported from tuxemon/combat.py
which is not in the sources; it checks whether the monster carries a
condition with the given slug. -/
def has_status (m : Monster) (slug : String) : Bool :=
  m.status.any (fun s => s.slug == slug)

/-- Queue effect of one monster check inside check_party_hp, combat.py
lines 1366 to 1370: when the monster is at or below zero health and does
not yet carry the faint condition, every action it is user or target of
is purged from the queue; faint_monster is then called on it. -/
def check_party_hp_queue (m : Monster) (q : List EnqueuedAction) :
    List EnqueuedAction :=
  if m.current_hp ≤ 0 ∧ ¬ has_status m "faint" then
    remove_monster_actions_from_queue m.id q
  else q

/-- Modelled from the spec: Monster.give_experience is defined outside the
sources; the grant adds the awarded amount to the experience accumulator
of the contributor. -/
def give_experience (m : Monster) (amount : Nat) : Monster :=
  { m with total_experience := m.total_experience + amount }

/-- Lookup of the damage ledger entry of a monster id (_damage_map). -/
def ledgerLookup (dmap : List (Nat × List Monster)) (i : Nat) :
    Option (List Monster) :=
  (dmap.find? (fun e => e.1 == i)).map Prod.snd

/-- Deletion del damage_map[monster] of combat.py line 1310; ledger keys
are unique, so filtering the key away removes exactly that entry. -/
def ledgerErase (dmap : List (Nat × List Monster)) (i : Nat) :
    List (Nat × List Monster) :=
  dmap.filter (fun e => e.1 != i)

/-- Result record of faint_monster: the fainted monster, the contributors
after the experience grant, the accumulated trainer prize and the new
damage ledger. -/
structure FaintResult where
  monster : Monster
  winners : List Monster
  prize : Nat
  damage_map : List (Nat × List Monster)
  deriving DecidableEq, Repr

/-- faint_monster of combat.py lines 1240 to 1310.  Sets health to zero
and replaces the status slot with the faint condition; when the fainted
monster has a damage ledger entry, computes the awarded experience with
floor division, grants the same amount to every contributor, accumulates
the trainer prize once per contributor, and deletes the ledger entry.
HUD updates, messages and the level-up move check go to external
collaborators and are not part of the returned data. -/
def faint_monster (is_trainer_battle : Bool) (prize : Nat) (m : Monster)
    (dmap : List (Nat × List Monster)) : FaintResult :=
  let fainted := { m with current_hp := 0, status := [⟨"faint", 0⟩] }
  match ledgerLookup dmap m.id with
  | none => ⟨fainted, [], prize, dmap⟩
  | some contributors =>
    let awarded_exp :=
      (m.total_experience / (m.level * contributors.length))
        * m.experience_modifier
    let awarded_mon := m.level * m.money_modifier
    ⟨fainted,
     contributors.map (fun w => give_experience w awarded_exp),
     prize +
       (if is_trainer_battle then contributors.length * awarded_mon else 0),
     ledgerErase dmap m.id⟩

/-- Item categories the AI distinguishes (tuxemon/db ItemCategory). -/
inductive ItemCategory
  | potion
  | capture
  | other
  deriving DecidableEq, Repr

/-- Item held by a trainer; the AI only reads the category. -/
structure Item where
  id : Nat
  category : ItemCategory
  deriving DecidableEq, Repr

/-- Round to the nearest integer with ties to even, the rounding Python
round performs.  The source computes round(hp * 0.15) on floats; for
every realistic hp the double product rounds to the same integer as the
exact rational product, so the model uses exact rationals. -/
def roundHalfEven (q : ℚ) : Int :=
  let f := Int.floor q
  let frac := q - f
  if frac < 1/2 then f
  else if 1/2 < frac then f + 1
  else if f % 2 = 0 then f else f + 1

/-- need_potion of ai.py lines 104 to 113: current health strictly above
one and at most round(hp * 0.15). -/
def need_potion (m : Monster) : Bool :=
  decide (1 < m.current_hp) &&
    decide (m.current_hp ≤ roundHalfEven ((m.hp : ℚ) * (15 / 100)))

/-- check_strongest of ai.py lines 89 to 102.  The Python code takes the
first roster monster of maximal level and compares its level with the
level of the AI monster; that first maximal level is the roster maximum,
so the check compares the level of the AI monster with the roster
maximum.  Python max errors on an empty roster; the fold from zero agrees
with it on every non empty roster. -/
def check_strongest (roster : List Monster) (m : Monster) : Bool :=
  m.level == (roster.map Monster.level).foldr max 0

/-- Technique selection the AI returns: a real move or the no-op skip
technique (Technique loaded from the skip slug). -/
inductive TechSel
  | skip
  | move (m : Move)
  deriving DecidableEq, Repr

/-- Slice self.monster.moves[-max_moves:] of ai.py line 61.  A Python
negative slice with max_moves equal to zero yields the whole list. -/
def recent_moves (m : Monster) : List Move :=
  if m.max_moves = 0 then m.moves
  else m.moves.drop (m.moves.length - m.max_moves)

/-- Candidate (move, opponent) pairs built by ai.py lines 59 to 66: the
recent moves that are off recharge, paired with every opponent the move
validates against, in enumeration order.  Technique.validate is defined
outside the sources and passed as a parameter. -/
def candidate_actions (validate : Move → Monster → Bool) (m : Monster)
    (opponents : List Monster) : List (Move × Monster) :=
  (recent_moves m).flatMap (fun mov =>
    if mov.next_use ≤ 0 then
      (opponents.filter (validate mov)).map (fun o => (mov, o))
    else [])

/-- track_next_use of ai.py lines 55 to 72.  random.choice is modelled by
an explicit draw r selecting index r modulo the list length; choice on an
empty opponent list raises IndexError, modelled as none. -/
def track_next_use (validate : Move → Monster → Bool) (m : Monster)
    (opponents : List Monster) (r : Nat) : Option (TechSel × Monster) :=
  match candidate_actions validate m opponents with
  | [] =>
    match opponents with
    | [] => none
    | o :: os =>
      some (.skip,
        (o :: os).get ⟨r % (o :: os).length, Nat.mod_lt r (Nat.succ_pos _)⟩)
  | a :: as =>
    let c := (a :: as).get ⟨r % (a :: as).length, Nat.mod_lt r (Nat.succ_pos _)⟩
    some (.move c.1, c.2)

/-- Action data the AI hands to enqueue_action: action_item enqueues
(user npc, item, own monster), action_tech enqueues
(own monster, technique, target). -/
inductive AIAction
  | useItem (itm : Item) (target : Monster)
  | useTech (t : TechSel) (target : Monster)
  deriving DecidableEq, Repr

/-- make_decision_trainer of ai.py lines 33 to 45 together with
action_item and action_tech (lines 115 to 127), returning the actions it
enqueues in order.  After the item loop the Python code falls through
unconditionally, so it always also selects and enqueues a technique.
pre_checking of action_tech is an external call mapping the technique
before enqueueing and is not modelled; the returned selection stands for
its argument. -/
def make_decision_trainer (validate : Move → Monster → Bool)
    (roster : List Monster) (items : List Item) (monster : Monster)
    (opponents : List Monster) (r : Nat) : Option (List AIAction) :=
  let item_actions : List AIAction :=
    if check_strongest roster monster then
      if 0 < items.length then
        (items.filter (fun itm =>
          itm.category == ItemCategory.potion && need_potion monster)).map
          (fun itm => .useItem itm monster)
      else []
    else []
  match track_next_use validate monster opponents r with
  | none => none
  | some tt => some (item_actions ++ [.useTech tt.1 tt.2])

/-- Technique record for the local damage effect: accuracy, slug and the
fields the effect mutates. -/
structure Technique where
  accuracy : ℚ
  slug : String
  hit : Bool
  counter_success : Nat
  deriving DecidableEq, Repr

/-- Result record a technique effect returns (TechEffectResult). -/
structure TechEffectResult where
  damage : Int
  element_multiplier : ℚ
  should_tackle : Bool
  success : Bool
  extra : Option String
  deriving DecidableEq, Repr

/-- MULT_MAP of combat.py lines 126 to 131: the four message buckets of
the type effectiveness multiplier. -/
def MULT_MAP (m : ℚ) : Option String :=
  if m = 4 then some "attack_very_effective"
  else if m = 2 then some "attack_effective"
  else if m = 1/2 then some "attack_resisted"
  else if m = 1/4 then some "attack_weak"
  else none

/-- Lookup combat.py line 1111 performs on the multiplier of a technique
result. -/
def element_damage_key (res : TechEffectResult) : Option String :=
  MULT_MAP res.element_multiplier

/-- LocalDamageEffect.apply of local_damage.py lines 38 to 64.
simple_damage_calculate and damage_full_hp live in tuxemon/formula.py,
outside the sources, and are passed as parameters; random_tech_hit is the
shared per round draw.  Returns the result record together with the
mutated target and technique; advance_counter_success is modelled as the
success counter increment on the technique. -/
def local_damage_apply
    (simple_damage_calculate : Technique → Monster → Monster → Int × ℚ)
    (damage_full_hp : Monster → Int)
    (tech : Technique) (user target : Monster) (random_tech_hit : ℚ) :
    TechEffectResult × Monster × Technique :=
  let value := random_tech_hit
  if tech.accuracy ≥ value then
    let tech1 := { tech with
      hit := true
      counter_success := tech.counter_success + 1 }
    let dm := simple_damage_calculate tech1 user target
    let damage := if tech.slug = "panjandrum"
      then damage_full_hp target else dm.1
    let target1 := { target with current_hp := target.current_hp - damage }
    (⟨damage, dm.2, damage != 0, damage != 0, none⟩, target1, tech1)
  else
    (⟨0, 1, false, false, none⟩, target, { tech with hit := false })

/-- Comparison operators of cmp_dict in current_hp.py lines 14 to 22. -/
inductive CmpOp
  | lt
  | le
  | gt
  | ge
  | eq
  deriving DecidableEq, Repr

/-- cmp_dict of current_hp.py lines 14 to 22, keyed by the optional
comparison string; a missing None key means greater or equal. -/
def cmp_dict (comparison : Option String) : Option CmpOp :=
  match comparison with
  | none => some .ge
  | some "<" => some .lt
  | some "<=" => some .le
  | some ">" => some .gt
  | some ">=" => some .ge
  | some "==" => some .eq
  | some "=" => some .eq
  | some _ => none

/-- Application of a comparison operator from cmp_dict. -/
def applyCmp (op : CmpOp) (lhs rhs : ℚ) : Bool :=
  match op with
  | .lt => decide (lhs < rhs)
  | .le => decide (lhs ≤ rhs)
  | .gt => decide (rhs < lhs)
  | .ge => decide (rhs ≤ lhs)
  | .eq => decide (lhs = rhs)

/-- Value field of the current_hp condition: a Python int or float. -/
inductive CondValue
  | intV (n : Int)
  | floatV (q : ℚ)
  deriving DecidableEq, Repr

/-- CurrentHitPointsCondition.test of current_hp.py lines 45 to 53; a
comparison string that is no key of cmp_dict raises KeyError, modelled as
none. -/
def current_hp_test (comparison : Option String) (value : CondValue)
    (target : Monster) : Option Bool :=
  match cmp_dict comparison with
  | none => none
  | some op =>
    let lhs : ℚ := target.current_hp
    let rhs : ℚ :=
      match value with
      | .floatV v => (target.hp : ℚ) * v
      | .intV n => n
    some (applyCmp op lhs rhs)

/-- Holds between an input player and the corresponding output player of
the housekeeping scan: every field but max_position is unchanged, and
max_position is either untouched or set to one for a player whose alive
party has exactly one monster. -/
def players_mp_update (p pnew : Player) : Prop :=
  pnew.id = p.id ∧ pnew.monsters = p.monsters ∧ pnew.in_play = p.in_play ∧
  (pnew = p ∨ (pnew.max_position = 1 ∧ (alive_party p).length = 1))

/-- Base monster for the concrete check inputs. -/
def baseMonster : Monster where
  id := 0
  current_hp := 10
  hp := 100
  level := 5
  total_experience := 0
  experience_modifier := 1
  money_modifier := 1
  max_moves := 4
  moves := []
  status := []

/-- Concrete move that is off recharge. -/
def exMove : Move := { id := 0, next_use := 0 }

/-- Concrete move still on recharge. -/
def exRechargingMove : Move := { id := 1, next_use := 5 }

/-- Concrete validate parameter accepting every target. -/
def exValidate : Move → Monster → Bool := fun _ _ => true

/-- Concrete opposing monster. -/
def exOpp : Monster := { baseMonster with id := 2 }

/-- Concrete AI monster at fifteen of a hundred health with one usable
move. -/
def exAIMon : Monster := { baseMonster with
  id := 1
  current_hp := 15
  level := 10
  moves := [exMove] }

/-- The same AI monster at one health. -/
def exAIMonLow : Monster := { exAIMon with current_hp := 1 }

/-- The same AI monster with every move on recharge. -/
def exRechMon : Monster := { exAIMon with moves := [exRechargingMove] }

/-- Concrete potion category item. -/
def exPotion : Item := { id := 0, category := .potion }

/-- Monster at one health of a hundred. -/
def exC3a : Monster := { baseMonster with current_hp := 1, hp := 100 }

/-- Monster at two health of ten. -/
def exC3b : Monster := { baseMonster with current_hp := 2, hp := 10 }

/-- Monster at fifteen health of a hundred. -/
def exC3c : Monster := { baseMonster with current_hp := 15, hp := 100 }

/-- Concrete fainting monster worth one thousand experience at level
ten. -/
def exTarget : Monster := { baseMonster with
  id := 7
  total_experience := 1000
  level := 10 }

/-- First damage contributor. -/
def exW1 : Monster := { baseMonster with id := 8 }

/-- Second damage contributor. -/
def exW2 : Monster := { baseMonster with id := 9 }

/-- Damage ledger holding the two contributors of exTarget. -/
def exLedger : List (Nat × List Monster) := [(7, [exW1, exW2])]

/-- Concrete technique with one half accuracy. -/
def exTech : Technique :=
  { accuracy := 1/2, slug := "x", hit := false, counter_success := 0 }

/-- Concrete damage formula parameter. -/
def exCalc : Technique → Monster → Monster → Int × ℚ := fun _ _ _ => (7, 2)

/-- Concrete full health damage parameter. -/
def exFull : Monster → Int := fun _ => 4

/-- Concrete action targeting monster one. -/
def exTgt1Action : EnqueuedAction :=
  { user := some 5, technique := some ⟨1, .damage⟩, target := 1 }

/-- Concrete action of monster one, enqueued twice in the C6 failing
input. -/
def exDupAction : EnqueuedAction :=
  { user := some 1, technique := some ⟨0, .damage⟩, target := 2 }

/-- Concrete fainting monster whose id matches exDupAction. -/
def exDupMon : Monster := { baseMonster with id := 1, current_hp := 0 }

/-- Concrete speed_test parameter reading the speed off the user id. -/
def exSpeed : EnqueuedAction → Int :=
  fun a => match a.user with | some n => (n : Int) | none => 0

/-- Damage action of a speed ten user. -/
def exDmgFast : EnqueuedAction :=
  { user := some 10, technique := some ⟨2, .damage⟩, target := 0 }

/-- Damage action of a speed five user. -/
def exDmgSlow : EnqueuedAction :=
  { user := some 5, technique := some ⟨3, .damage⟩, target := 0 }

/-- Second damage action with the same sort key as exDmgSlow. -/
def exDmgTie : EnqueuedAction :=
  { user := some 5, technique := some ⟨4, .damage⟩, target := 0 }

/-- Alive monster for the C1 counterexample. -/
def exC1mon : Monster := { baseMonster with id := 3, current_hp := 5 }

/-- Player with a single alive monster and two battle positions. -/
def exC1player : Player :=
  { id := 0, monsters := [exC1mon], max_position := 2, in_play := [] }

/-- Housekeeping phase state for the C1 counterexample. -/
def exC1state : CombatState :=
  { phase := some .housekeeping, players := [exC1player],
    action_queue := [], run := false }

/-- Ready phase state for the C1 witness. -/
def exC1ready : CombatState :=
  { phase := some .ready, players := [], action_queue := [], run := false }

/-- Helper: deleting a ledger key removes it from lookup. -/
theorem ledgerLookup_erase (dmap : List (Nat × List Monster)) (i : Nat) :
    ledgerLookup (ledgerErase dmap i) i = none := by
  unfold ledgerLookup ledgerErase
  have hnone : List.find? (fun e => e.1 == i)
      (dmap.filter (fun e => e.1 != i)) = none := by
    rw [List.find?_eq_none]
    intro x hx
    have hxf := List.of_mem_filter hx
    simp only [bne_iff_ne, ne_eq] at hxf
    simp only [beq_iff_eq]
    exact hxf
  rw [hnone]
  rfl

/-- C10: current_hp_test applies the comparison operator of cmp_dict with
the current health on the left and, for a float value, max health times
the value on the right, while an int value is used as an absolute
threshold; a missing (None) comparison means greater or equal; in
particular the condition current_hp <,1.0 holds exactly when the monster
is below full health. -/
theorem C10_current_hp_test (m : Monster) (c : Option String) (op : CmpOp)
    (hop : cmp_dict c = some op) (n : Int) (q : ℚ) :
    current_hp_test c (.floatV q) m
        = some (applyCmp op (m.current_hp : ℚ) ((m.hp : ℚ) * q)) ∧
    current_hp_test c (.intV n) m
        = some (applyCmp op (m.current_hp : ℚ) (n : ℚ)) ∧
    cmp_dict none = some CmpOp.ge ∧
    (current_hp_test (some "<") (.floatV 1) m = some true
        ↔ m.current_hp < m.hp) := by
  refine ⟨?_, ?_, rfl, ?_⟩
  · simp [current_hp_test, hop]
  · simp [current_hp_test, hop]
  · have hlt : cmp_dict (some "<") = some CmpOp.lt := rfl
    simp [current_hp_test, hlt, applyCmp, mul_one]

/-- Witness for C10 at a concrete comparison and monster. -/
theorem C10_current_hp_test_witness :
    cmp_dict (some "<") = some CmpOp.lt ∧
    (current_hp_test (some "<") (.floatV 1) baseMonster = some true
      ↔ baseMonster.current_hp < baseMonster.hp) := by
  exact ⟨rfl,
    (C10_current_hp_test baseMonster (some "<") CmpOp.lt rfl 0 1).2.2.2⟩

/-- C9: rewrite_action_queue_target keeps the queue length and order,
rewrites exactly the actions whose target is the original monster to
target the new monster, keeps their user and payload, leaves every other
action unchanged, and, when the new monster differs from the original,
leaves no queued action targeting the original. -/
theorem C9_rewrite_action_queue_target (original new : Nat)
    (q : List EnqueuedAction) :
    (rewrite_action_queue_target original new q).length = q.length ∧
    (∀ i (h : i < q.length)
        (h2 : i < (rewrite_action_queue_target original new q).length),
      ((rewrite_action_queue_target original new q).get ⟨i, h2⟩).user
          = (q.get ⟨i, h⟩).user ∧
      ((rewrite_action_queue_target original new q).get ⟨i, h2⟩).technique
          = (q.get ⟨i, h⟩).technique ∧
      ((q.get ⟨i, h⟩).target = original →
        (rewrite_action_queue_target original new q).get ⟨i, h2⟩
          = { q.get ⟨i, h⟩ with target := new }) ∧
      ((q.get ⟨i, h⟩).target ≠ original →
        (rewrite_action_queue_target original new q).get ⟨i, h2⟩
          = q.get ⟨i, h⟩)) ∧
    (new ≠ original →
      ∀ b ∈ rewrite_action_queue_target original new q,
        b.target ≠ original) := by
  refine ⟨by simp [rewrite_action_queue_target], ?_, ?_⟩
  · intro i h h2
    have hg : (rewrite_action_queue_target original new q).get ⟨i, h2⟩
        = (fun a => if a.target = original
            then { a with target := new } else a) (q.get ⟨i, h⟩) := by
      simp [rewrite_action_queue_target]
    rw [hg]
    dsimp only
    by_cases ht : (q.get ⟨i, h⟩).target = original
    · rw [if_pos ht]
      exact ⟨rfl, rfl, fun _ => rfl, fun hcon => absurd ht hcon⟩
    · rw [if_neg ht]
      exact ⟨rfl, rfl, fun hcon => absurd hcon ht, fun _ => rfl⟩
  · intro hne b hb
    simp only [rewrite_action_queue_target, List.mem_map] at hb
    obtain ⟨a, _, hab⟩ := hb
    by_cases ht : a.target = original
    · rw [if_pos ht] at hab
      rw [← hab]
      simpa using hne
    · rw [if_neg ht] at hab
      rw [← hab]
      exact ht

/-- Witness for C9 at a concrete queue: after retargeting one to two, no
action targets one. -/
theorem C9_rewrite_action_queue_target_witness :
    (2 : Nat) ≠ 1 ∧
    ∀ b ∈ rewrite_action_queue_target 1 2 [exTgt1Action],
      b.target ≠ 1 := by
  exact ⟨by decide,
    (C9_rewrite_action_queue_target 1 2 [exTgt1Action]).2.2 (by decide)⟩

/-- C5: when a monster with a damage ledger entry faints, every
contributor is granted exactly floor(total_experience divided by (level
times contributor count)) times experience_modifier, the same amount for
every contributor regardless of damage share, and the ledger entry for
that monster is deleted afterward. -/
theorem C5_faint_monster (is_trainer : Bool) (prize : Nat) (m : Monster)
    (dmap : List (Nat × List Monster)) (contributors : List Monster)
    (hentry : ledgerLookup dmap m.id = some contributors) :
    (faint_monster is_trainer prize m dmap).winners
      = contributors.map (fun w => give_experience w
          ((m.total_experience / (m.level * contributors.length))
            * m.experience_modifier)) ∧
    (∀ w ∈ contributors,
      give_experience w ((m.total_experience
          / (m.level * contributors.length)) * m.experience_modifier)
        ∈ (faint_monster is_trainer prize m dmap).winners ∧
      (give_experience w ((m.total_experience
          / (m.level * contributors.length))
            * m.experience_modifier)).total_experience
        = w.total_experience + (m.total_experience
            / (m.level * contributors.length)) * m.experience_modifier) ∧
    ledgerLookup (faint_monster is_trainer prize m dmap).damage_map m.id
      = none := by
  unfold faint_monster
  rw [hentry]
  refine ⟨rfl, ?_, ?_⟩
  · intro w hw
    exact ⟨List.mem_map_of_mem _ hw, rfl⟩
  · exact ledgerLookup_erase dmap m.id

/-- Witness for C5: total experience one thousand, level ten, two
contributors, modifier one awards fifty to each contributor, and the
ledger entry is gone afterward. -/
theorem C5_faint_monster_witness :
    ledgerLookup exLedger exTarget.id = some [exW1, exW2] ∧
    (faint_monster false 0 exTarget exLedger).winners
      = [give_experience exW1 50, give_experience exW2 50] ∧
    (give_experience exW1 50).total_experience
      = exW1.total_experience + 50 ∧
    ledgerLookup (faint_monster false 0 exTarget exLedger).damage_map
      exTarget.id = none := by
  have h := C5_faint_monster false 0 exTarget exLedger [exW1, exW2] (by rfl)
  refine ⟨by rfl, ?_, ?_, h.2.2⟩
  · rw [h.1]
    rfl
  · exact (h.2.1 exW1 (by simp)).2

/-- C7: a local damage application hits exactly when the technique
accuracy is at least the shared random draw; on a miss the returned
damage is zero and should_tackle is false; and the multiplier message
buckets exist exactly at four, two, one half and one quarter, with no
bucket at one. -/
theorem C7_local_damage (dmgCalc : Technique → Monster → Monster → Int × ℚ)
    (full : Monster → Int) (tech : Technique) (user target : Monster)
    (draw : ℚ) :
    ((local_damage_apply dmgCalc full tech user target draw).2.2.hit = true
      ↔ tech.accuracy ≥ draw) ∧
    (¬ tech.accuracy ≥ draw →
      (local_damage_apply dmgCalc full tech user target draw).1.damage = 0 ∧
      (local_damage_apply dmgCalc full tech user target draw).1.should_tackle
        = false) ∧
    (∀ mq : ℚ, (MULT_MAP mq).isSome = true
      ↔ (mq = 4 ∨ mq = 2 ∨ mq = 1/2 ∨ mq = 1/4)) ∧
    MULT_MAP 4 = some "attack_very_effective" ∧
    MULT_MAP 2 = some "attack_effective" ∧
    MULT_MAP (1/2) = some "attack_resisted" ∧
    MULT_MAP (1/4) = some "attack_weak" ∧
    MULT_MAP 1 = none := by
  refine ⟨?_, ?_, ?_, by norm_num [MULT_MAP], by norm_num [MULT_MAP],
    by norm_num [MULT_MAP], by norm_num [MULT_MAP], by norm_num [MULT_MAP]⟩
  · by_cases hcase : tech.accuracy ≥ draw
    · simp [local_damage_apply, hcase]
    · simp [local_damage_apply, hcase]
  · intro hmiss
    simp [local_damage_apply, hmiss]
  · intro mq
    unfold MULT_MAP
    split_ifs with h1 h2 h3 h4 <;> simp_all

/-- Witness for C7: half accuracy against a draw of one misses, with zero
damage and no tackle. -/
theorem C7_local_damage_witness :
    ¬ exTech.accuracy ≥ (1 : ℚ) ∧
    (local_damage_apply exCalc exFull exTech baseMonster baseMonster
      1).1.damage = 0 ∧
    (local_damage_apply exCalc exFull exTech baseMonster baseMonster
      1).1.should_tackle = false := by
  have hmiss : ¬ exTech.accuracy ≥ (1 : ℚ) := by norm_num [exTech]
  have h := (C7_local_damage exCalc exFull exTech baseMonster baseMonster
    1).2.1 hmiss
  exact ⟨hmiss, h.1, h.2⟩

/-- Helper: rounding half to even is the identity on integers. -/
theorem roundHalfEven_intCast (n : Int) : roundHalfEven (n : ℚ) = n := by
  unfold roundHalfEven
  rw [Int.floor_intCast]
  norm_num

/-- Helper: round of three halves, the tie case at ten max health. -/
theorem roundHalfEven_three_halves : roundHalfEven (3/2 : ℚ) = 2 := by
  have hf : ⌊(3/2 : ℚ)⌋ = 1 := by
    rw [Int.floor_eq_iff]
    constructor <;> norm_num
  unfold roundHalfEven
  rw [hf]
  norm_num

/-- C3 is false as stated: at one health of a hundred max health the
claimed band (health strictly above zero and at most fifteen percent of
max health) holds but the gate does not trigger, because the code demands
health strictly above one; and at two health of ten max health the
claimed band fails (two exceeds one and a half) while the gate triggers,
because the code compares against round(1.5) which is two. -/
theorem C3_counterexample :
    (need_potion exC3a = false ∧ 0 < exC3a.current_hp ∧
      (exC3a.current_hp : ℚ) ≤ 15/100 * (exC3a.hp : ℚ)) ∧
    (need_potion exC3b = true ∧
      ¬ ((exC3b.current_hp : ℚ) ≤ 15/100 * (exC3b.hp : ℚ))) := by
  have ha1 : exC3a.current_hp = 1 := rfl
  have hahp : exC3a.hp = 100 := rfl
  have hb2 : exC3b.current_hp = 2 := rfl
  have hbhp : exC3b.hp = 10 := rfl
  have h32 : ((10 : Int) : ℚ) * (15/100) = 3/2 := by norm_num
  refine ⟨⟨?_, ?_, ?_⟩, ⟨?_, ?_⟩⟩
  · simp [need_potion, ha1]
  · rw [ha1]
    norm_num
  · rw [ha1, hahp]
    norm_num
  · simp only [need_potion, hb2, hbhp, Bool.and_eq_true, decide_eq_true_eq]
    have h32b : ((10 : Int) : ℚ) * (15/100) = 3/2 := by norm_num
    rw [h32b, roundHalfEven_three_halves]
    omega
  · rw [hb2, hbhp]
    norm_num

/-- C3 amended: need_potion holds exactly for current health strictly
above one and at most round(0.15 times max health) with rounding half to
even; when max health is a multiple of twenty, so that fifteen percent of
it is an integer, the upper bound is exactly fifteen percent of max
health; and at zero health the gate never triggers. -/
theorem C3_amended (m : Monster) (k : Int) (hk : m.hp = 20 * k) :
    (need_potion m = true ↔
      1 < m.current_hp ∧ (m.current_hp : ℚ) ≤ 15/100 * (m.hp : ℚ)) ∧
    need_potion { m with current_hp := 0 } = false := by
  have h15 : (m.hp : ℚ) * (15/100) = ((3 * k : Int) : ℚ) := by
    rw [hk]
    push_cast
    ring
  have h15b : (15/100 : ℚ) * (m.hp : ℚ) = ((3 * k : Int) : ℚ) := by
    rw [← h15]
    ring
  constructor
  · unfold need_potion
    rw [h15, roundHalfEven_intCast]
    simp only [Bool.and_eq_true, decide_eq_true_eq]
    constructor
    · rintro ⟨h1, h2⟩
      refine ⟨h1, ?_⟩
      rw [h15b]
      exact_mod_cast h2
    · rintro ⟨h1, h2⟩
      refine ⟨h1, ?_⟩
      rw [h15b] at h2
      exact_mod_cast h2
  · unfold need_potion
    simp

/-- Witness for C3 amended: at fifteen health of a hundred the gate
triggers, and at zero health it does not. -/
theorem C3_amended_witness :
    exC3c.hp = 20 * 5 ∧ need_potion exC3c = true ∧
    need_potion { exC3c with current_hp := 0 } = false := by
  have h := C3_amended exC3c 5 (by rfl)
  exact ⟨by rfl, h.1.mpr (by norm_num [exC3c, baseMonster]), h.2⟩

/-- Helper: counting after folding erase over a removal list. -/
theorem foldl_erase_count (rs : List EnqueuedAction)
    (q : List EnqueuedAction) (a : EnqueuedAction) :
    (rs.foldl (fun acc x => acc.erase x) q).count a
      = q.count a - rs.count a := by
  induction rs generalizing q with
  | nil => simp
  | cons r rs ih =>
    simp only [List.foldl_cons, List.count_cons]
    rw [ih, List.count_erase]
    by_cases har : a = r <;> simp [har] <;> omega

/-- Helper: remove_monster_actions_from_queue deletes exactly one
occurrence of every distinct matching action value and nothing else. -/
theorem remove_monster_actions_count (monster : Nat)
    (q : List EnqueuedAction) (a : EnqueuedAction) :
    (remove_monster_actions_from_queue monster q).count a
      = q.count a - (if action_references monster a = true ∧ a ∈ q
          then 1 else 0) := by
  unfold remove_monster_actions_from_queue
  rw [foldl_erase_count, List.count_dedup]
  have hmem : a ∈ q.filter (action_references monster)
      ↔ (action_references monster a = true ∧ a ∈ q) := by
    rw [List.mem_filter]
    tauto
  congr 1
  simp only [hmem]

/-- C6 records a code bug: the purge docstring promises to remove all
queued actions of a particular monster, but the code collects the
matching actions into a set and removes one occurrence per distinct
tuple, so a queue holding the same action tuple twice keeps an occurrence
that still references the fainted monster.  Evaluation at the failing
input: monster one is at zero health and not yet fainted, the queue holds
its action twice, and after the faint purge one referencing action
remains. -/
theorem C6_code_evaluation :
    exDupMon.current_hp ≤ 0 ∧ has_status exDupMon "faint" = false ∧
    action_references exDupMon.id exDupAction = true ∧
    check_party_hp_queue exDupMon [exDupAction, exDupAction]
      = [exDupAction] := by
  decide

/-- Helper: every candidate pair targets an opponent. -/
theorem candidate_actions_target_mem (validate : Move → Monster → Bool)
    (m : Monster) (opponents : List Monster) (p : Move × Monster)
    (hp : p ∈ candidate_actions validate m opponents) :
    p.2 ∈ opponents := by
  unfold candidate_actions at hp
  rw [List.mem_flatMap] at hp
  obtain ⟨mov, _, hpin⟩ := hp
  by_cases hnu : mov.next_use ≤ 0
  · rw [if_pos hnu] at hpin
    rw [List.mem_map] at hpin
    obtain ⟨o, ho, hpo⟩ := hpin
    rw [← hpo]
    exact List.mem_of_mem_filter ho
  · rw [if_neg hnu] at hpin
    simp at hpin

/-- Helper: with at least one opposing monster, track_next_use returns a
selection whose target is an opponent. -/
theorem track_next_use_some (validate : Move → Monster → Bool)
    (m : Monster) (opponents : List Monster) (r : Nat)
    (hopp : opponents ≠ []) :
    ∃ t target, track_next_use validate m opponents r = some (t, target) ∧
      target ∈ opponents := by
  unfold track_next_use
  cases hc : candidate_actions validate m opponents with
  | nil =>
    obtain ⟨o, os, rfl⟩ := List.exists_cons_of_ne_nil hopp
    exact ⟨.skip, _, rfl, List.get_mem _ _ _⟩
  | cons a as =>
    refine ⟨_, _, rfl, ?_⟩
    have hmem : (a :: as).get
        ⟨r % (a :: as).length, Nat.mod_lt r (Nat.succ_pos _)⟩
        ∈ candidate_actions validate m opponents := by
      rw [hc]
      exact List.get_mem _ _ _
    exact candidate_actions_target_mem validate m opponents _ hmem

/-- Helper: when every recent move is on recharge or validates against no
opponent, the candidate set is empty. -/
theorem candidate_actions_eq_nil (validate : Move → Monster → Bool)
    (m : Monster) (opponents : List Monster)
    (hall : ∀ mov ∈ recent_moves m, 0 < mov.next_use ∨
      ∀ o ∈ opponents, validate mov o = false) :
    candidate_actions validate m opponents = [] := by
  unfold candidate_actions
  rw [List.flatMap_eq_nil_iff]
  intro mov hmov
  by_cases hnu : mov.next_use ≤ 0
  · rw [if_pos hnu]
    rcases hall mov hmov with h1 | h2
    · omega
    · rw [List.map_eq_nil_iff, List.filter_eq_nil_iff]
      intro o ho
      simp [h2 o ho]
  · rw [if_neg hnu]

/-- C8: with at least one opposing monster, track_next_use never raises
an error; when every recent move is on recharge or validates against no
opponent it returns the no-op skip technique aimed at the opponent the
draw selects, every opponent being selected by some draw; and when the
candidate set is non empty it returns the candidate pair the draw
selects, every candidate pair being selected by some draw. -/
theorem C8_track_next_use (validate : Move → Monster → Bool) (m : Monster)
    (opponents : List Monster) (r : Nat) (hopp : opponents ≠ []) :
    (track_next_use validate m opponents r).isSome = true ∧
    ((∀ mov ∈ recent_moves m, 0 < mov.next_use ∨
        ∀ o ∈ opponents, validate mov o = false) →
      (∃ target ∈ opponents,
        track_next_use validate m opponents r = some (.skip, target)) ∧
      (∀ i (hi : i < opponents.length),
        ∃ rr, track_next_use validate m opponents rr
          = some (.skip, opponents.get ⟨i, hi⟩))) ∧
    (∀ a as, candidate_actions validate m opponents = a :: as →
      (∃ p ∈ (a :: as),
        track_next_use validate m opponents r = some (.move p.1, p.2)) ∧
      (∀ j (hj : j < (a :: as).length),
        ∃ rr, track_next_use validate m opponents rr
          = some (.move (((a :: as).get ⟨j, hj⟩).1),
              ((a :: as).get ⟨j, hj⟩).2))) := by
  refine ⟨?_, ?_, ?_⟩
  · obtain ⟨t, target, heq, _⟩ :=
      track_next_use_some validate m opponents r hopp
    rw [heq]
    rfl
  · intro hall
    have hc := candidate_actions_eq_nil validate m opponents hall
    obtain ⟨o, os, rfl⟩ := List.exists_cons_of_ne_nil hopp
    constructor
    · refine ⟨(o :: os).get
        ⟨r % (o :: os).length, Nat.mod_lt r (Nat.succ_pos _)⟩,
        List.get_mem _ _ _, ?_⟩
      unfold track_next_use
      rw [hc]
    · intro i hi
      refine ⟨i, ?_⟩
      have heq : track_next_use validate m (o :: os) i
          = some (.skip, (o :: os).get
              ⟨i % (o :: os).length, Nat.mod_lt i (Nat.succ_pos _)⟩) := by
        unfold track_next_use
        rw [hc]
      rw [heq]
      have hfin : ((o :: os).get
          ⟨i % (o :: os).length, Nat.mod_lt i (Nat.succ_pos _)⟩)
          = (o :: os).get ⟨i, hi⟩ := by
        congr 1
        exact Fin.ext (Nat.mod_eq_of_lt hi)
      rw [hfin]
  · intro a as hc
    constructor
    · refine ⟨(a :: as).get
        ⟨r % (a :: as).length, Nat.mod_lt r (Nat.succ_pos _)⟩,
        List.get_mem _ _ _, ?_⟩
      unfold track_next_use
      rw [hc]
    · intro j hj
      refine ⟨j, ?_⟩
      have heq : track_next_use validate m opponents j
          = some (.move (((a :: as).get
              ⟨j % (a :: as).length, Nat.mod_lt j (Nat.succ_pos _)⟩).1),
              ((a :: as).get
              ⟨j % (a :: as).length, Nat.mod_lt j (Nat.succ_pos _)⟩).2) := by
        unfold track_next_use
        rw [hc]
      rw [heq]
      have hfin : ((a :: as).get
          ⟨j % (a :: as).length, Nat.mod_lt j (Nat.succ_pos _)⟩)
          = (a :: as).get ⟨j, hj⟩ := by
        congr 1
        exact Fin.ext (Nat.mod_eq_of_lt hj)
      rw [hfin]

/-- Witness for C8: a monster whose only move is on recharge against one
opponent; the selection is skip at that opponent and not an error. -/
theorem C8_track_next_use_witness :
    ([exOpp] : List Monster) ≠ [] ∧
    (∀ mov ∈ recent_moves exRechMon, 0 < mov.next_use ∨
      ∀ o ∈ [exOpp], exValidate mov o = false) ∧
    (track_next_use exValidate exRechMon [exOpp] 0).isSome = true ∧
    ∃ target ∈ [exOpp],
      track_next_use exValidate exRechMon [exOpp] 0
        = some (.skip, target) := by
  have hopp : ([exOpp] : List Monster) ≠ [] := by decide
  have hall : ∀ mov ∈ recent_moves exRechMon, 0 < mov.next_use ∨
      ∀ o ∈ [exOpp], exValidate mov o = false := by decide
  have h := C8_track_next_use exValidate exRechMon [exOpp] 0 hopp
  exact ⟨hopp, hall, h.1, (h.2.1 hall).1⟩

/-- Helper: the potion gate triggers at fifteen health of a hundred. -/
theorem need_potion_exAIMon : need_potion exAIMon = true := by
  have hch : exAIMon.current_hp = 15 := rfl
  have hhp : exAIMon.hp = 100 := rfl
  have h100 : ((100 : Int) : ℚ) * (15/100) = ((15 : Int) : ℚ) := by
    norm_num
  simp only [need_potion, hch, hhp, h100, roundHalfEven_intCast]
  rfl

/-- Helper: the potion gate does not trigger at one health. -/
theorem need_potion_exAIMonLow : need_potion exAIMonLow = false := by
  have hch : exAIMonLow.current_hp = 1 := rfl
  simp [need_potion, hch]

/-- C2 is false as stated: with the strongest monster at fifteen health
of a hundred (inside the claimed band) holding a potion, the decision
enqueues the item action and ALSO enqueues a technique action for the
same monster in the same round, because the trainer decision falls
through to technique selection unconditionally; moreover at one health,
also inside the claimed band, the item action is not enqueued at all,
because the potion gate demands health strictly above one. -/
theorem C2_counterexample :
    (0 < exAIMon.current_hp ∧
      (exAIMon.current_hp : ℚ) ≤ 15/100 * (exAIMon.hp : ℚ) ∧
      make_decision_trainer exValidate [exAIMon] [exPotion] exAIMon
        [exOpp] 0
        = some [.useItem exPotion exAIMon,
                .useTech (.move exMove) exOpp]) ∧
    (0 < exAIMonLow.current_hp ∧
      (exAIMonLow.current_hp : ℚ) ≤ 15/100 * (exAIMonLow.hp : ℚ) ∧
      make_decision_trainer exValidate [exAIMonLow] [exPotion] exAIMonLow
        [exOpp] 0
        = some [.useTech (.move exMove) exOpp]) := by
  refine ⟨⟨by decide, ?_, ?_⟩, ⟨by decide, ?_, ?_⟩⟩
  · rw [show exAIMon.current_hp = 15 from rfl,
      show exAIMon.hp = 100 from rfl]
    norm_num
  · simp only [make_decision_trainer, need_potion_exAIMon]
    rfl
  · rw [show exAIMonLow.current_hp = 1 from rfl,
      show exAIMonLow.hp = 100 from rfl]
    norm_num
  · simp only [make_decision_trainer, need_potion_exAIMonLow]
    rfl

/-- C2 amended: in a trainer battle, whenever the AI monster is the
strongest by level in its roster, its current health is in the band the
code checks (strictly above one and at most round(0.15 times max
health)), and there is at least one opposing monster, then for every
potion category item in the party the decision enqueues that item action
on the monster itself, and additionally always enqueues one technique
action for the monster, targeted at an opponent, as the final enqueued
action: the item is used in addition to, not instead of, a technique. -/
theorem C2_amended (validate : Move → Monster → Bool)
    (roster : List Monster) (items : List Item) (monster : Monster)
    (opponents : List Monster) (itm : Item) (r : Nat)
    (hstrong : check_strongest roster monster = true)
    (hitm : itm ∈ items) (hcat : itm.category = ItemCategory.potion)
    (hband : 1 < monster.current_hp ∧
      monster.current_hp ≤ roundHalfEven ((monster.hp : ℚ) * (15/100)))
    (hopp : opponents ≠ []) :
    ∃ acts, make_decision_trainer validate roster items monster opponents r
        = some acts ∧
      AIAction.useItem itm monster ∈ acts ∧
      ∃ t target, acts.getLast? = some (.useTech t target) ∧
        target ∈ opponents := by
  have hnp : need_potion monster = true := by
    unfold need_potion
    rw [Bool.and_eq_true]
    exact ⟨decide_eq_true hband.1, decide_eq_true hband.2⟩
  have hlen : 0 < items.length :=
    List.length_pos.mpr (List.ne_nil_of_mem hitm)
  obtain ⟨t, target, htrack, htmem⟩ :=
    track_next_use_some validate monster opponents r hopp
  have hacts : make_decision_trainer validate roster items monster
      opponents r
      = some (((items.filter (fun i2 =>
          i2.category == ItemCategory.potion && need_potion monster)).map
            (fun i2 => AIAction.useItem i2 monster))
          ++ [.useTech t target]) := by
    unfold make_decision_trainer
    rw [htrack, hstrong, if_pos rfl, if_pos hlen]
  refine ⟨_, hacts, ?_, ?_⟩
  · apply List.mem_append_left
    apply List.mem_map_of_mem
    rw [List.mem_filter]
    refine ⟨hitm, ?_⟩
    rw [hcat, hnp]
    rfl
  · refine ⟨t, target, ?_, htmem⟩
    rw [List.getLast?_concat]

/-- Witness for C2 amended at the concrete trainer setup. -/
theorem C2_amended_witness :
    check_strongest [exAIMon] exAIMon = true ∧
    exPotion ∈ [exPotion] ∧ exPotion.category = ItemCategory.potion ∧
    (1 < exAIMon.current_hp ∧
      exAIMon.current_hp ≤ roundHalfEven ((exAIMon.hp : ℚ) * (15/100))) ∧
    ([exOpp] : List Monster) ≠ [] ∧
    ∃ acts, make_decision_trainer exValidate [exAIMon] [exPotion] exAIMon
        [exOpp] 0 = some acts ∧
      AIAction.useItem exPotion exAIMon ∈ acts ∧
      ∃ t target, acts.getLast? = some (.useTech t target) ∧
        target ∈ [exOpp] := by
  have hband : 1 < exAIMon.current_hp ∧
      exAIMon.current_hp ≤ roundHalfEven ((exAIMon.hp : ℚ) * (15/100)) := by
    have hch : exAIMon.current_hp = 15 := rfl
    have hhp : exAIMon.hp = 100 := rfl
    have h100 : ((100 : Int) : ℚ) * (15/100) = ((15 : Int) : ℚ) := by
      norm_num
    rw [hch, hhp, h100, roundHalfEven_intCast]
    omega
  exact ⟨by decide, by decide, by decide, hband, by decide,
    C2_amended exValidate [exAIMon] [exPotion] exAIMon [exOpp] exPotion 0
      (by decide) (by decide) (by decide) hband (by decide)⟩

/-- Helper: the player update relation is reflexive. -/
theorem players_mp_update_refl (p : Player) : players_mp_update p p :=
  ⟨rfl, rfl, rfl, Or.inl rfl⟩

/-- Helper: Forall₂ reflexivity for the player update relation. -/
theorem forall2_players_refl (ps : List Player) :
    List.Forall₂ players_mp_update ps ps :=
  List.forall₂_same.mpr (fun p _ => players_mp_update_refl p)

/-- Helper: the housekeeping scan changes players only by setting
max_position to one on players with exactly one alive monster. -/
theorem determine_phase_housekeeping_frame (ps : List Player) :
    List.Forall₂ players_mp_update ps
      (determine_phase_housekeeping ps).2 := by
  induction ps with
  | nil => exact List.Forall₂.nil
  | cons p ps ih =>
    unfold determine_phase_housekeeping
    by_cases hd : defeated p = true
    · rw [if_pos hd]
      exact List.Forall₂.cons (players_mp_update_refl p) ih
    · rw [if_neg hd]
      by_cases halive : (alive_party p).length = 1
      · rw [if_pos halive]
        dsimp only
        split
        · exact List.Forall₂.cons ⟨rfl, rfl, rfl, Or.inr ⟨rfl, halive⟩⟩
            (forall2_players_refl ps)
        · exact List.Forall₂.cons ⟨rfl, rfl, rfl, Or.inr ⟨rfl, halive⟩⟩ ih
      · rw [if_neg halive]
        dsimp only
        split
        · exact List.Forall₂.cons (players_mp_update_refl p)
            (forall2_players_refl ps)
        · exact List.Forall₂.cons (players_mp_update_refl p) ih

/-- Helper: determine_phase leaves the state untouched outside the
housekeeping phase. -/
theorem determine_phase_snd (s : CombatState)
    (h : s.phase ≠ some CombatPhase.housekeeping) :
    (determine_phase s).2 = s := by
  unfold determine_phase
  cases hph : s.phase with
  | none => rfl
  | some ph =>
    cases ph <;> first
      | rfl
      | (exact absurd hph h)
      | (dsimp only; split <;> rfl)
      | (dsimp only; split <;> (first | rfl | (split <;> rfl)))

/-- C1 amended: determine_phase returns the next phase or stay and leaves
the combat state unchanged in every phase except housekeeping; in the
housekeeping phase its only mutation is that some players get
max_position set to one, each such player having exactly one alive
monster, while the phase, the action queue, the run flag, every roster
and the player order are unchanged. -/
theorem C1_determine_phase_frame (s : CombatState) :
    (s.phase ≠ some CombatPhase.housekeeping →
      (determine_phase s).2 = s) ∧
    (determine_phase s).2.phase = s.phase ∧
    (determine_phase s).2.action_queue = s.action_queue ∧
    (determine_phase s).2.run = s.run ∧
    List.Forall₂ players_mp_update s.players
      (determine_phase s).2.players := by
  by_cases hph : s.phase = some CombatPhase.housekeeping
  · have h2 : (determine_phase s).2
        = { s with players := (determine_phase_housekeeping s.players).2 } := by
      unfold determine_phase
      rw [hph]
    rw [h2]
    exact ⟨fun hc => absurd hph hc, rfl, rfl, rfl,
      determine_phase_housekeeping_frame s.players⟩
  · rw [determine_phase_snd s hph]
    exact ⟨fun _ => rfl, rfl, rfl, rfl, forall2_players_refl s.players⟩

/-- Witness for C1 amended: in the ready phase the state is returned
unchanged. -/
theorem C1_determine_phase_frame_witness :
    exC1ready.phase ≠ some CombatPhase.housekeeping ∧
    (determine_phase exC1ready).2 = exC1ready := by
  exact ⟨by decide, (C1_determine_phase_frame exC1ready).1 (by decide)⟩

/-- C1 is false as stated: in the housekeeping phase, for an active
player whose alive party has exactly one monster, determine_phase
mutates the player by setting max_position to one while answering stay,
so it is not side effect free. -/
theorem C1_counterexample :
    (determine_phase exC1state).2 ≠ exC1state ∧
    (determine_phase exC1state).1 = none ∧
    (determine_phase exC1state).2.players.map Player.max_position = [1] ∧
    exC1state.players.map Player.max_position = [2] := by
  decide

/-- Helper: the key order is total. -/
theorem rankLe_total (x y : Nat × Int) : rankLe x y ∨ rankLe y x := by
  unfold rankLe
  omega

/-- Helper: the key order is transitive. -/
theorem rankLe_trans {x y z : Nat × Int} (h1 : rankLe x y)
    (h2 : rankLe y z) : rankLe x z := by
  unfold rankLe at h1 h2 ⊢
  omega

/-- Helper: the key order is reflexive. -/
theorem rankLe_refl (x : Nat × Int) : rankLe x x := by
  unfold rankLe
  omega

/-- Helper: insertion produces a permutation. -/
theorem insertDescending_perm (k : EnqueuedAction → Nat × Int)
    (x : EnqueuedAction) (l : List EnqueuedAction) :
    (insertDescending k x l).Perm (x :: l) := by
  induction l with
  | nil => exact List.Perm.refl _
  | cons y ys ih =>
    unfold insertDescending
    by_cases hxy : rankLe (k x) (k y)
    · rw [if_pos hxy]
      exact (List.Perm.cons y ih).trans (List.Perm.swap x y ys)
    · rw [if_neg hxy]

/-- Helper: insertion into a descending sorted list stays sorted. -/
theorem insertDescending_pairwise (k : EnqueuedAction → Nat × Int)
    (x : EnqueuedAction) (l : List EnqueuedAction)
    (h : l.Pairwise (fun a b => rankLe (k b) (k a))) :
    (insertDescending k x l).Pairwise
      (fun a b => rankLe (k b) (k a)) := by
  induction l with
  | nil => simp [insertDescending]
  | cons y ys ih =>
    rw [List.pairwise_cons] at h
    obtain ⟨hy, hys⟩ := h
    unfold insertDescending
    by_cases hxy : rankLe (k x) (k y)
    · rw [if_pos hxy]
      rw [List.pairwise_cons]
      constructor
      · intro z hz
        have hz2 := (insertDescending_perm k x ys).mem_iff.mp hz
        rcases List.mem_cons.mp hz2 with rfl | hzys
        · exact hxy
        · exact hy z hzys
      · exact ih hys
    · rw [if_neg hxy]
      rw [List.pairwise_cons]
      constructor
      · intro z hz
        rcases List.mem_cons.mp hz with rfl | hzys
        · exact (rankLe_total (k x) (k z)).resolve_left hxy
        · exact rankLe_trans (hy z hzys)
            ((rankLe_total (k x) (k y)).resolve_left hxy)
      · exact List.Pairwise.cons hy hys

/-- Helper: the fold of insertions keeps sortedness. -/
theorem foldl_insert_pairwise (k : EnqueuedAction → Nat × Int)
    (l acc : List EnqueuedAction)
    (hacc : acc.Pairwise (fun a b => rankLe (k b) (k a))) :
    (l.foldl (fun a x => insertDescending k x a) acc).Pairwise
      (fun a b => rankLe (k b) (k a)) := by
  induction l generalizing acc with
  | nil => exact hacc
  | cons x xs ih => exact ih _ (insertDescending_pairwise k x acc hacc)

/-- Helper: the model sort is sorted by descending key. -/
theorem pySortDescending_pairwise (k : EnqueuedAction → Nat × Int)
    (l : List EnqueuedAction) :
    (pySortDescending k l).Pairwise (fun a b => rankLe (k b) (k a)) :=
  foldl_insert_pairwise k l [] List.Pairwise.nil

/-- Helper: the fold of insertions is a permutation. -/
theorem foldl_insert_perm (k : EnqueuedAction → Nat × Int)
    (l acc : List EnqueuedAction) :
    (l.foldl (fun a x => insertDescending k x a) acc).Perm (acc ++ l) := by
  induction l generalizing acc with
  | nil => simp
  | cons x xs ih =>
    rw [List.foldl_cons]
    refine (ih (insertDescending k x acc)).trans ?_
    refine (List.Perm.append_right xs (insertDescending_perm k x acc)).trans
      ?_
    exact List.perm_middle.symm

/-- Helper: the model sort permutes the queue. -/
theorem pySortDescending_perm (k : EnqueuedAction → Nat × Int)
    (l : List EnqueuedAction) : (pySortDescending k l).Perm l := by
  have h := foldl_insert_perm k l []
  simpa [pySortDescending] using h

/-- Helper: inserting an element of key v into a sorted list appends it
after the existing elements of key v. -/
theorem insertDescending_filter_eq (k : EnqueuedAction → Nat × Int)
    (x : EnqueuedAction) (l : List EnqueuedAction) (v : Nat × Int)
    (hxv : k x = v)
    (hsort : l.Pairwise (fun a b => rankLe (k b) (k a))) :
    (insertDescending k x l).filter (fun a => decide (k a = v))
      = l.filter (fun a => decide (k a = v)) ++ [x] := by
  subst hxv
  induction l with
  | nil => simp [insertDescending]
  | cons y ys ih =>
    rw [List.pairwise_cons] at hsort
    obtain ⟨hy, hys⟩ := hsort
    unfold insertDescending
    by_cases hxy : rankLe (k x) (k y)
    · rw [if_pos hxy, List.filter_cons, List.filter_cons, ih hys]
      by_cases hyv : (k y = k x)
      · simp [hyv]
      · simp [hyv]
    · rw [if_neg hxy, List.filter_cons]
      have hnil : (y :: ys).filter (fun a => decide (k a = k x)) = [] := by
        rw [List.filter_eq_nil_iff]
        intro z hz
        simp only [decide_eq_true_eq]
        intro hzx
        rcases List.mem_cons.mp hz with rfl | hzys
        · exact hxy (by rw [hzx]; exact rankLe_refl _)
        · exact hxy (by rw [← hzx]; exact hy z hzys)
      rw [hnil]
      simp

/-- Helper: inserting an element of another key leaves the key v filter
unchanged. -/
theorem insertDescending_filter_ne (k : EnqueuedAction → Nat × Int)
    (x : EnqueuedAction) (l : List EnqueuedAction) (v : Nat × Int)
    (hxv : ¬ (k x = v)) :
    (insertDescending k x l).filter (fun a => decide (k a = v))
      = l.filter (fun a => decide (k a = v)) := by
  induction l with
  | nil => simp [insertDescending, hxv]
  | cons y ys ih =>
    unfold insertDescending
    by_cases hxy : rankLe (k x) (k y)
    · rw [if_pos hxy, List.filter_cons, List.filter_cons, ih]
    · rw [if_neg hxy, List.filter_cons]
      simp [hxv]

/-- Helper: the fold of insertions is stable on every key class. -/
theorem foldl_insert_filter (k : EnqueuedAction → Nat × Int)
    (l acc : List EnqueuedAction) (v : Nat × Int)
    (hacc : acc.Pairwise (fun a b => rankLe (k b) (k a))) :
    (l.foldl (fun a x => insertDescending k x a) acc).filter
        (fun a => decide (k a = v))
      = acc.filter (fun a => decide (k a = v))
        ++ l.filter (fun a => decide (k a = v)) := by
  induction l generalizing acc with
  | nil => simp
  | cons x xs ih =>
    rw [List.foldl_cons, ih _ (insertDescending_pairwise k x acc hacc)]
    by_cases hxv : k x = v
    · rw [insertDescending_filter_eq k x acc v hxv hacc, List.filter_cons]
      simp [hxv]
    · rw [insertDescending_filter_ne k x acc v hxv, List.filter_cons]
      simp [hxv]

/-- Helper: the model sort is stable, it preserves the enqueue order
inside every key class. -/
theorem pySortDescending_filter (k : EnqueuedAction → Nat × Int)
    (l : List EnqueuedAction) (v : Nat × Int) :
    (pySortDescending k l).filter (fun a => decide (k a = v))
      = l.filter (fun a => decide (k a = v)) := by
  have h := foldl_insert_filter k l [] v List.Pairwise.nil
  simpa [pySortDescending] using h

/-- Helper: draining by popping from the end reverses the list. -/
theorem drainQueue_eq_reverse (q : List EnqueuedAction) :
    drainQueue q = q.reverse := by
  induction q using List.reverseRecOn with
  | nil =>
    rw [drainQueue]
    rfl
  | append_singleton l a ih =>
    rw [drainQueue]
    split
    · rename_i h
      rw [List.getLast?_concat] at h
      simp at h
    · rename_i a2 h
      rw [List.getLast?_concat, Option.some_inj] at h
      rw [List.dropLast_concat, ih, ← h]
      simp

/-- C4 amended: after sort_action_queue the executor pops from the end of
the sorted sequence, so the execution order is the reverse of the sorted
queue: a permutation of the enqueued actions, ascending in the
lexicographic sort key (the action whose category comes earliest in the
fixed list executes first, and within a speed keyed category the action
of the LOWER speed user executes before the higher speed one); actions
sharing category and speed execute in REVERSE enqueue order. -/
theorem C4_sort_action_queue (speed_test : EnqueuedAction → Int)
    (q : List EnqueuedAction) :
    (drainQueue (sort_action_queue speed_test q)).Perm q ∧
    (drainQueue (sort_action_queue speed_test q)).Pairwise
      (fun a b => rankLe (rank_action speed_test a)
        (rank_action speed_test b)) ∧
    (∀ v : Nat × Int,
      (drainQueue (sort_action_queue speed_test q)).filter
          (fun a => decide (rank_action speed_test a = v))
        = (q.filter
            (fun a => decide (rank_action speed_test a = v))).reverse) := by
  have hdr : drainQueue (sort_action_queue speed_test q)
      = (sort_action_queue speed_test q).reverse :=
    drainQueue_eq_reverse _
  refine ⟨?_, ?_, ?_⟩
  · rw [hdr]
    exact (List.reverse_perm _).trans
      (pySortDescending_perm (rank_action speed_test) q)
  · rw [hdr, List.pairwise_reverse]
    exact pySortDescending_pairwise (rank_action speed_test) q
  · intro v
    rw [hdr, List.filter_reverse]
    exact congrArg List.reverse
      (pySortDescending_filter (rank_action speed_test) q v)

/-- C4 is false as stated: with two damage actions the executor runs the
action of the speed five user before the action of the speed ten user,
and two actions sharing category and speed execute in reverse enqueue
order. -/
theorem C4_counterexample :
    drainQueue (sort_action_queue exSpeed [exDmgFast, exDmgSlow])
      = [exDmgSlow, exDmgFast] ∧
    exSpeed exDmgFast = 10 ∧ exSpeed exDmgSlow = 5 ∧
    (rank_action exSpeed exDmgFast).1
      = (rank_action exSpeed exDmgSlow).1 ∧
    drainQueue (sort_action_queue exSpeed [exDmgSlow, exDmgTie])
      = [exDmgTie, exDmgSlow] ∧
    rank_action exSpeed exDmgSlow = rank_action exSpeed exDmgTie := by
  rw [drainQueue_eq_reverse, drainQueue_eq_reverse]
  decide

end Tuxemon
